import Mathlib

/-!
Verification of the loss-composition engine of the `shimmer` repository
(`src/shimmer/modules/losses.py`) and of the step entry points of the workspace
orchestrator (`src/shimmer/modules/global_workspace.py`).

Modelling conventions:
* Scalar tensors are modelled as rationals (`ℚ`).
* Python dicts are association lists `List (String × α)`; iteration order is
  insertion order, `dinsert` models `d[k] = v` (overwrite keeps the position of
  an existing key, exactly like a Python dict).
* A Python value that can be `int` or `float` (the loss coefficients) is a
  `PyNum`, so that `isinstance(coef, float)` is representable.
* A Python function raising an exception is modelled with `Option`/`Except`:
  `none`/`.error` is an uncaught exception.
* The neural collaborators (GW module, selection module, domain loss hooks) are
  opaque callables; they are parameters of the embedded functions, gathered in
  small environment structures.
-/

/-- A Python number: `int` or `float`.  `combine_loss` and `GWLosses.step`
filter coefficients with `isinstance(coef, float)`, so the tag matters. -/
inductive PyNum where
  | int : Int → PyNum
  | float : ℚ → PyNum
deriving DecidableEq, Repr

/-- `isinstance(coef, float)` (a Python `int` is not a `float`). -/
def PyNum.isFloat : PyNum → Bool
  | .float _ => true
  | .int _ => false

/-- The numeric value carried by a `PyNum`. -/
def PyNum.val : PyNum → ℚ
  | .float q => q
  | .int n => (n : ℚ)

/-- `d[k] = v` on a Python dict: overwrite the value if the key is present
(keeping its position), append otherwise. -/
def dinsert (k : String) (v : α) : List (String × α) → List (String × α)
  | [] => [(k, v)]
  | kv :: rest => if kv.1 = k then (k, v) :: rest else kv :: dinsert k v rest

/-- `d.update(l)` on Python dicts. -/
def updateAll (m l : List (String × α)) : List (String × α) :=
  l.foldl (fun acc kv => dinsert kv.1 kv.2 acc) m

/-- Mean of a stack of scalar tensors, `torch.stack(l, dim=0).mean()`;
only meaningful for non-empty `l` (`torch.stack` raises on an empty list). -/
def listMean (l : List ℚ) : ℚ := l.sum / l.length

/-! ## `combine_loss` (losses.py lines 332-359) -/

/-- The list built by the comprehension inside `combine_loss`:
`[metrics[name] * coef for name, coef in coefs.items()
  if name in metrics and isinstance(coef, float) and coef > 0]`. -/
def selected_losses (metrics : List (String × ℚ)) (coefs : List (String × PyNum)) :
    List ℚ :=
  coefs.filterMap fun nc =>
    match metrics.lookup nc.1 with
    | some m => if nc.2.isFloat = true ∧ (0 : ℚ) < nc.2.val then some (m * nc.2.val)
        else none
    | none => none

/-- `combine_loss(metrics, coefs)`: mean of the selected weighted metrics.
`none` models the `RuntimeError` that `torch.stack` raises on an empty list. -/
def combine_loss (metrics : List (String × ℚ)) (coefs : List (String × PyNum)) :
    Option ℚ :=
  match selected_losses metrics coefs with
  | [] => none
  | l => some (listMean l)

/-! ## The `broadcast_loss` summary metric assembled in `GWLosses.step`
(losses.py lines 769-776):
`torch.stack([metrics[name] for name, coef in self.loss_coefs.items()
  if isinstance(coef, float) and coef > 0 and name != "contrastives"]).mean()` -/

/-- The coefficient names selected by the comprehension in `GWLosses.step`. -/
def step_summary_names (coefs : List (String × PyNum)) : List String :=
  coefs.filterMap fun nc =>
    match nc.2 with
    | .float c => if 0 < c ∧ ¬nc.1 = "contrastives" then some nc.1 else none
    | .int _ => none

/-- The `broadcast_loss` summary value of `GWLosses.step`.  `none` models the
`KeyError` when a selected name is absent from `metrics`, and the
`RuntimeError` of `torch.stack` on an empty list. -/
def step_broadcast_summary (metrics : List (String × ℚ))
    (coefs : List (String × PyNum)) : Option ℚ :=
  let names := step_summary_names coefs
  if names.any fun n => (metrics.lookup n).isNone then none
  else
    match names.map fun n => (metrics.lookup n).getD 0 with
    | [] => none
    | l => some (listMean l)

/-! ## `generate_partitions` (losses.py lines 501-515) -/

/-- `itertools.product([0, 1], repeat=n)`, first factor varying slowest;
`0 ↦ false`, `1 ↦ true`. -/
def product01 : Nat → List (List Bool)
  | 0 => [[]]
  | n + 1 => [false, true].flatMap fun b => (product01 n).map fun t => b :: t

/-- `generate_partitions(n)`: every 0/1 tuple of length `n` except the
all-zeros one. -/
def generate_partitions (n : Nat) : List (List Bool) :=
  (product01 n).filter fun p => p.any id

/-! ## `broadcast_loss`: subset selection (losses.py lines 572-581) -/

/-- `{domain: latents[domain] for domain, present in zip(latents, partition,
strict=True) if present}`, restricted to the keys. -/
def selected_subset (g : List String) (partition : List Bool) : List String :=
  (g.zip partition).filterMap fun dp => if dp.2 then some dp.1 else none

/-- The active subsets that `broadcast_loss` enumerates for one domain group
`g`: one per element of `generate_partitions(len(g))`. -/
def broadcast_active_subsets (g : List String) : List (List String) :=
  (generate_partitions g.length).map (selected_subset g)

/-! ## Supporting lemmas -/

theorem selected_losses_append (metrics : List (String × ℚ))
    (c1 c2 : List (String × PyNum)) :
    selected_losses metrics (c1 ++ c2) =
      selected_losses metrics c1 ++ selected_losses metrics c2 :=
  List.filterMap_append _ _ _

theorem selected_losses_eq_filter_map (metrics : List (String × ℚ))
    (coefs : List (String × PyNum)) :
    selected_losses metrics coefs =
      (coefs.filter fun nc =>
          (metrics.lookup nc.1).isSome && nc.2.isFloat && decide ((0 : ℚ) < nc.2.val)).map
        fun nc => (metrics.lookup nc.1).getD 0 * nc.2.val := by
  induction coefs with
  | nil => rfl
  | cons nc t ih =>
    simp only [selected_losses, List.filterMap_cons] at *
    cases h : metrics.lookup nc.1 with
    | none => simp [h, ih]
    | some m =>
      by_cases hf : nc.2.isFloat = true ∧ (0 : ℚ) < nc.2.val
      · simp [h, hf.1, hf.2, List.filter_cons, ih]
      · rw [not_and_or] at hf
        rcases hf with hf | hf
        · simp only [Bool.not_eq_true] at hf
          simp [h, hf, List.filter_cons, ih]
        · simp [h, hf, List.filter_cons, ih]

theorem step_summary_names_append (c1 c2 : List (String × PyNum)) :
    step_summary_names (c1 ++ c2) = step_summary_names c1 ++ step_summary_names c2 :=
  List.filterMap_append _ _ _

theorem product01_length (n : Nat) : (product01 n).length = 2 ^ n := by
  induction n with
  | zero => rfl
  | succ n ih =>
    simp [product01, List.flatMap_cons, List.flatMap_nil, ih, pow_succ]
    ring

theorem product01_mem_length (n : Nat) : ∀ p ∈ product01 n, p.length = n := by
  induction n with
  | zero => intro p hp; simp [product01] at hp; simp [hp]
  | succ n ih =>
    intro p hp
    simp only [product01, List.flatMap_cons, List.flatMap_nil, List.append_nil,
      List.mem_append, List.mem_map] at hp
    rcases hp with ⟨t, ht, rfl⟩ | ⟨t, ht, rfl⟩ <;> simp [ih t ht]

theorem generate_partitions_succ (n : Nat) :
    generate_partitions (n + 1) =
      (generate_partitions n).map (false :: ·) ++ (product01 n).map (true :: ·) := by
  have h1 : List.filter ((fun p => p.any id) ∘ fun t => false :: t) (product01 n)
      = List.filter (fun p => p.any id) (product01 n) :=
    List.filter_congr fun a _ => by simp
  have h2 : List.filter ((fun p => p.any id) ∘ fun t => true :: t) (product01 n)
      = product01 n :=
    List.filter_eq_self.2 fun a _ => by simp
  simp only [generate_partitions, product01, List.flatMap_cons, List.flatMap_nil,
    List.append_nil, List.filter_append, List.filter_map]
  rw [h1, h2]

theorem generate_partitions_length (n : Nat) :
    (generate_partitions n).length = 2 ^ n - 1 := by
  induction n with
  | zero => rfl
  | succ n ih =>
    have h1 : 1 ≤ 2 ^ n := Nat.one_le_two_pow
    simp only [generate_partitions_succ, List.length_append, List.length_map,
      product01_length]
    rw [ih]
    omega

theorem selected_subset_ne_nil (g : List String) (p : List Bool)
    (hlen : g.length = p.length) (hany : p.any id = true) :
    selected_subset g p ≠ [] := by
  induction g generalizing p with
  | nil =>
    cases p with
    | nil => simp at hany
    | cons b t => simp at hlen
  | cons d g' ih =>
    cases p with
    | nil => simp at hlen
    | cons b t =>
      cases b with
      | true => simp [selected_subset]
      | false =>
        simp only [List.any_cons, id, Bool.false_or] at hany
        simp only [List.length_cons, Nat.succ_inj] at hlen
        simpa [selected_subset] using ih t hlen hany

theorem selected_subset_subset (g : List String) (p : List Bool) :
    ∀ d ∈ selected_subset g p, d ∈ g := by
  intro d hd
  simp only [selected_subset, List.mem_filterMap] at hd
  obtain ⟨⟨a, b⟩, hab, hval⟩ := hd
  have := List.of_mem_zip hab
  cases b with
  | true => simp at hval; exact hval ▸ this.1
  | false => simp at hval

/-! ## Claim theorems -/

/-- **C1.** `combine_loss` returns the mean over `{metric_value * coef}` for
exactly the names present in both the metrics map and the coefficient table
whose coefficient is a float strictly greater than 0 (second conjunct, stated
as an independent filter-then-map characterisation); a coefficient of exactly
0 is excluded (fourth conjunct); a coefficient key absent from the metrics map
is silently ignored (third conjunct); and
`combine_loss({"x": 2.0, "y": 4.0}, {"x": 1.0, "y": 0.0})` returns `2.0`
(first conjunct). -/
theorem combine_loss_mean_of_positive_float_coefs :
    (combine_loss [("x", 2), ("y", 4)] [("x", .float 1), ("y", .float 0)] = some 2)
    ∧ (∀ (metrics : List (String × ℚ)) (coefs : List (String × PyNum)),
        combine_loss metrics coefs =
          match (coefs.filter fun nc =>
              (metrics.lookup nc.1).isSome && nc.2.isFloat
                && decide ((0 : ℚ) < nc.2.val)).map
              (fun nc => (metrics.lookup nc.1).getD 0 * nc.2.val) with
          | [] => none
          | l => some (l.sum / l.length))
    ∧ (∀ (metrics : List (String × ℚ)) (coefs : List (String × PyNum))
        (name : String) (c : PyNum), metrics.lookup name = none →
        combine_loss metrics (coefs ++ [(name, c)]) = combine_loss metrics coefs)
    ∧ (∀ (metrics : List (String × ℚ)) (coefs : List (String × PyNum))
        (name : String),
        combine_loss metrics (coefs ++ [(name, .float 0)]) =
          combine_loss metrics coefs) := by
  refine ⟨?_, ?_, ?_, ?_⟩
  · simp [combine_loss, selected_losses, listMean, PyNum.isFloat, PyNum.val,
      List.lookup]
  · intro metrics coefs
    rw [combine_loss, selected_losses_eq_filter_map]
    rfl
  · intro metrics coefs name c h
    rw [combine_loss, combine_loss, selected_losses_append]
    have : selected_losses metrics [(name, c)] = [] := by
      simp [selected_losses, h]
    rw [this, List.append_nil]
  · intro metrics coefs name
    rw [combine_loss, combine_loss, selected_losses_append]
    have : selected_losses metrics [(name, .float 0)] = [] := by
      cases hl : metrics.lookup name <;> simp [selected_losses, hl, PyNum.val]
    rw [this, List.append_nil]

/-- Witness for C1: the absent-key conjunct applied at a concrete input
(`"z"` is not a key of the metrics map). -/
theorem combine_loss_mean_of_positive_float_coefs_witness :
    combine_loss [("x", 2)] ([("x", .float 1)] ++ [("z", .float 5)]) =
      combine_loss [("x", 2)] [("x", .float 1)] :=
  combine_loss_mean_of_positive_float_coefs.2.2.1 [("x", 2)] [("x", .float 1)]
    "z" (.float 5) (by simp [List.lookup])

/-- **C2.** For every domain group of size `k`, `broadcast_loss` enumerates
exactly `2 ^ k - 1` active subsets (one per generated partition), each of which
is a non-empty subset of the group's domains, and for `k = 1` it enumerates
exactly 1 subset (the demi-cycle case). -/
theorem broadcast_active_subsets_count :
    (∀ g : List String, (broadcast_active_subsets g).length = 2 ^ g.length - 1)
    ∧ (∀ g : List String, g.length = 1 → (broadcast_active_subsets g).length = 1)
    ∧ (∀ g : List String, ∀ s ∈ broadcast_active_subsets g,
        s ≠ [] ∧ ∀ d ∈ s, d ∈ g) := by
  have hcount : ∀ g : List String,
      (broadcast_active_subsets g).length = 2 ^ g.length - 1 := by
    intro g
    simp [broadcast_active_subsets, generate_partitions_length]
  refine ⟨hcount, ?_, ?_⟩
  · intro g hg
    rw [hcount, hg]
    norm_num
  · intro g s hs
    simp only [broadcast_active_subsets, List.mem_map] at hs
    obtain ⟨p, hp, rfl⟩ := hs
    simp only [generate_partitions, List.mem_filter] at hp
    have hlen : p.length = g.length := product01_mem_length _ p hp.1
    exact ⟨selected_subset_ne_nil g p hlen.symm hp.2, selected_subset_subset g p⟩

/-- Witness for C2: the size-1 conjunct applied at the concrete group
`["t"]`. -/
theorem broadcast_active_subsets_count_witness :
    (broadcast_active_subsets ["t"]).length = 1 :=
  broadcast_active_subsets_count.2.1 ["t"] (by simp)

/-- **C10.** A coefficient supplied as a Python `int` is silently excluded
from `combine_loss` exactly as if the key were absent, for any position in the
coefficient table and any (even positive) integer value; the same
`isinstance(coef, float)` filter governs the `broadcast_loss` summary metric
assembled in `GWLosses.step`. -/
theorem int_coefficient_excluded_as_if_absent :
    (∀ (metrics : List (String × ℚ)) (c1 c2 : List (String × PyNum))
      (name : String) (k : Int),
      combine_loss metrics (c1 ++ (name, .int k) :: c2) =
        combine_loss metrics (c1 ++ c2))
    ∧ (∀ (metrics : List (String × ℚ)) (c1 c2 : List (String × PyNum))
      (name : String) (k : Int),
      step_broadcast_summary metrics (c1 ++ (name, .int k) :: c2) =
        step_broadcast_summary metrics (c1 ++ c2)) := by
  constructor
  · intro metrics c1 c2 name k
    rw [combine_loss, combine_loss, selected_losses_append, selected_losses_append]
    have : selected_losses metrics ((name, .int k) :: c2) =
        selected_losses metrics c2 := by
      cases hl : metrics.lookup name <;>
        simp [selected_losses, List.filterMap_cons, hl, PyNum.isFloat]
    rw [this]
  · intro metrics c1 c2 name k
    rw [step_broadcast_summary, step_broadcast_summary]
    have : step_summary_names ((name, .int k) :: c2) = step_summary_names c2 := by
      simp [step_summary_names, List.filterMap_cons]
    rw [step_summary_names_append, step_summary_names_append, this]

/-! ## `contrastive_loss` (losses.py lines 231-282) -/

/-- Modelled from the spec: `LossOutput` (domain.py is not under src/) is a
(scalar loss, auxiliary metric name → scalar) pair, spec §3. -/
structure LossOut where
  loss : ℚ
  metrics : List (String × ℚ)
deriving DecidableEq

/-- External collaborators of `contrastive_loss`: the per-domain workspace
encoder and the injected contrastive function.  Modelled from the spec:
`gw_mod.encode` (gw_module.py is not under src/) maps each present domain's
latent independently into workspace space — one projection per domain, no
fusion (spec §4.1) — hence the per-domain `enc`. -/
structure CLEnv where
  enc : String → ℚ → ℚ
  contrastive_fn : ℚ → ℚ → LossOut

/-- Mutable state of one `contrastive_loss` invocation: the `losses` and
`metrics` dicts and the `keys` dedup list of already-scored unordered pairs
(`keys: list[set[str]] = []`, shared across all groups). -/
structure CLState where
  losses : List (String × ℚ)
  metrics : List (String × ℚ)
  keys : List (Finset String)

/-- The body of the doubly-nested loop of `contrastive_loss` for one ordered
pair `(domain1, z1), (domain2, z2)`:  skip when `domain1 == domain2` or the
unordered pair is already in `keys`; otherwise append the pair to `keys` and
record `contrastive_{domain1}_and_{domain2}`. -/
def cl_pair_step (env : CLEnv) (st : CLState) (p1 p2 : String × ℚ) : CLState :=
  if p1.1 = p2.1 ∨ ({p1.1, p2.1} : Finset String) ∈ st.keys then st
  else
    let out := env.contrastive_fn p1.2 p2.2
    let name := "contrastive_" ++ p1.1 ++ "_and_" ++ p2.1
    { losses := dinsert name out.loss st.losses
      metrics := updateAll st.metrics
        (out.metrics.map fun kv => (name ++ "_" ++ kv.1, kv.2))
      keys := st.keys ++ [{p1.1, p2.1}] }

/-- Processing of one latent group by `contrastive_loss`: groups whose size is
not exactly 2 are skipped (`if len(latents) != 2: continue`); otherwise each
domain is encoded independently and every ordered pair is visited. -/
def cl_group_step (env : CLEnv) (st : CLState) (latents : List (String × ℚ)) :
    CLState :=
  if latents.length ≠ 2 then st
  else
    let cont := latents.map fun dz => (dz.1, env.enc dz.1 dz.2)
    cont.foldl (fun st1 p1 => cont.foldl (fun st2 p2 => cl_pair_step env st2 p1 p2) st1)
      st

/-- State after the group loop of `contrastive_loss`. -/
def contrastive_state (env : CLEnv) (groups : List (List (String × ℚ))) : CLState :=
  groups.foldl (cl_group_step env) ⟨[], [], []⟩

/-- The dedup list after one `contrastive_loss` invocation; one entry is
appended per scored pair, at the scoring site, so this is also the trace of
scored unordered pairs in scoring order. -/
def contrastive_keys (env : CLEnv) (groups : List (List (String × ℚ))) :
    List (Finset String) :=
  (contrastive_state env groups).keys

/-- The `losses` dict after the group loop of `contrastive_loss` (one
`contrastive_{d1}_and_{d2}` entry per scored pair). -/
def contrastive_losses (env : CLEnv) (groups : List (List (String × ℚ))) :
    List (String × ℚ) :=
  (contrastive_state env groups).losses

/-- Full `contrastive_loss`: append the `contrastives` mean and the auxiliary
metrics.  `none` models the `RuntimeError` of `torch.stack` on an empty list
(no pair was scored). -/
def contrastive_loss (env : CLEnv) (groups : List (List (String × ℚ))) :
    Option (List (String × ℚ)) :=
  let st := contrastive_state env groups
  match st.losses with
  | [] => none
  | _ => some (updateAll
      (dinsert "contrastives" (listMean (st.losses.map Prod.snd)) st.losses)
      st.metrics)

theorem foldl_preserves {σ α : Type _} (f : σ → α → σ) (P : σ → Prop)
    (hstep : ∀ s a, P s → P (f s a)) :
    ∀ (l : List α) (s : σ), P s → P (l.foldl f s) := by
  intro l
  induction l with
  | nil => intro s hs; exact hs
  | cons a t ih => intro s hs; exact ih (f s a) (hstep s a hs)

theorem cl_pair_step_keys_nodup (env : CLEnv) (st : CLState) (p1 p2 : String × ℚ)
    (h : st.keys.Nodup) : (cl_pair_step env st p1 p2).keys.Nodup := by
  rw [cl_pair_step]
  by_cases hc : p1.1 = p2.1 ∨ ({p1.1, p2.1} : Finset String) ∈ st.keys
  · rw [if_pos hc]; exact h
  · rw [if_neg hc]
    rw [not_or] at hc
    refine List.nodup_append.2 ⟨h, List.nodup_singleton _, ?_⟩
    intro a ha hmem
    rw [List.mem_singleton] at hmem
    exact hc.2 (hmem ▸ ha)

theorem cl_group_step_keys_nodup (env : CLEnv) (st : CLState)
    (latents : List (String × ℚ)) (h : st.keys.Nodup) :
    (cl_group_step env st latents).keys.Nodup := by
  rw [cl_group_step]
  by_cases hl : latents.length ≠ 2
  · rw [if_pos hl]; exact h
  · rw [if_neg hl]
    exact foldl_preserves _ (fun s => s.keys.Nodup)
      (fun s a hs => foldl_preserves _ (fun s => s.keys.Nodup)
        (fun s2 a2 hs2 => cl_pair_step_keys_nodup env s2 a a2 hs2) _ s hs) _ st h

theorem contrastive_keys_nodup (env : CLEnv) (groups : List (List (String × ℚ))) :
    (contrastive_keys env groups).Nodup :=
  foldl_preserves _ (fun s => s.keys.Nodup)
    (fun s a hs => cl_group_step_keys_nodup env s a hs) groups ⟨[], [], []⟩
    List.nodup_nil

/-- **C6.** During one `contrastive_loss` invocation, each unordered
cross-domain pair `{A, B}` is scored at most once, regardless of the order in
which the enumeration visits `(A, B)` or `(B, A)`: the trace of scored pairs
(the `keys` dedup list, which receives exactly one entry per emitted pairwise
metric) contains `{A, B}` at most once. -/
theorem contrastive_pair_scored_at_most_once (env : CLEnv)
    (groups : List (List (String × ℚ))) (A B : String) :
    (contrastive_keys env groups).count ({A, B} : Finset String) ≤ 1 :=
  List.nodup_iff_count_le_one.1 (contrastive_keys_nodup env groups) _

/-- **C4 is false on the code** (counterexample): `contrastive_loss` skips any
group whose size is not exactly 2 (`if len(latents) != 2: continue`), so a
group with domains `{A, B, C}` produces 0 unordered-pair metrics, not 3; with
no other group present the final `torch.stack` over the empty loss list even
raises (modelled by `none`). -/
theorem contrastive_three_domain_group_scores_nothing :
    contrastive_keys ⟨fun _ z => z, fun x y => ⟨x + y, []⟩⟩
        [[("A", 1), ("B", 2), ("C", 3)]] = []
    ∧ contrastive_loss ⟨fun _ z => z, fun x y => ⟨x + y, []⟩⟩
        [[("A", 1), ("B", 2), ("C", 3)]] = none := by
  constructor <;>
    simp [contrastive_keys, contrastive_loss, contrastive_state, cl_group_step]

/-- **C4 (amended).** `contrastive_loss` scores only groups containing exactly
two domains: a group of any other size contributes nothing to the invocation
(first conjunct); a not-yet-scored two-domain group `{A, B}` yields exactly one
pairwise loss entry, whose value is the contrastive function applied to the
two independently encoded latents (second conjunct).  In particular a group
with domains `{A, B, C}` produces 0 pair metrics, never 3 or 6. -/
theorem contrastive_scores_exactly_two_domain_groups :
    (∀ (env : CLEnv) (gs1 gs2 : List (List (String × ℚ)))
      (g : List (String × ℚ)), g.length ≠ 2 →
      contrastive_state env (gs1 ++ g :: gs2) = contrastive_state env (gs1 ++ gs2))
    ∧ (∀ (env : CLEnv) (A B : String) (zA zB : ℚ), A ≠ B →
      contrastive_losses env [[(A, zA), (B, zB)]] =
        [("contrastive_" ++ A ++ "_and_" ++ B,
          (env.contrastive_fn (env.enc A zA) (env.enc B zB)).loss)]) := by
  constructor
  · intro env gs1 gs2 g hg
    simp only [contrastive_state, List.foldl_append, List.foldl_cons]
    rw [cl_group_step, if_pos hg]
  · intro env A B zA zB h
    have hBA : ({B, A} : Finset String) = {A, B} := Finset.pair_comm B A
    simp only [contrastive_losses, contrastive_state, List.foldl_cons,
      List.foldl_nil]
    rw [cl_group_step]
    norm_num
    simp [cl_pair_step, h, Ne.symm h, hBA, dinsert, updateAll]

/-- Witness for C4: the two-domain conjunct applied at the concrete group
`{"a": 1, "b": 2}` with identity encoders and an additive contrastive
function. -/
theorem contrastive_scores_exactly_two_domain_groups_witness :
    contrastive_losses ⟨fun _ z => z, fun x y => ⟨x + y, []⟩⟩
        [[("a", 1), ("b", 2)]] = [("contrastive_" ++ "a" ++ "_and_" ++ "b", 3)] := by
  have h := contrastive_scores_exactly_two_domain_groups.2
    ⟨fun _ z => z, fun x y => ⟨x + y, []⟩⟩ "a" "b" 1 2 (by decide)
  norm_num at h
  exact h

/-! ## `broadcast_loss` (losses.py lines 518-689) -/

/-- The three loss kinds a decoded target can be scored with inside
`broadcast_loss`. -/
inductive BLKind where
  | dcy
  | tr
  | fused
deriving DecidableEq

/-- The hook dispatch of `broadcast_loss` (losses.py lines 595-600):
`if num_active_domains == 1 and domain in selected_latents: compute_dcy_loss`,
`elif domain not in selected_latents: compute_tr_loss`,
`else: compute_fused_loss`. -/
def broadcast_case (num_active : Nat) (selected : List String) (domain : String) :
    BLKind :=
  if num_active = 1 ∧ domain ∈ selected then .dcy
  else if domain ∉ selected then .tr
  else .fused

/-- The bucket classification of `broadcast_loss` (losses.py lines 614-619),
a textual repetition of the hook dispatch in the source. -/
def broadcast_bucket (num_active : Nat) (selected : List String) (domain : String) :
    BLKind :=
  if num_active = 1 ∧ domain ∈ selected then .dcy
  else if domain ∉ selected then .tr
  else .fused

/-- External collaborators of `broadcast_loss`: the known domains of the GW
module, the per-domain encoder, the selection module, the fusion step, the
per-domain decoder, and the four domain loss hooks.  Modelled from the spec
(gw_module.py is not under src/): `gw_mod.encode` applies one projection per
present domain, and `gw_mod.decode` with no `domains` argument decodes to
every known domain (spec §4.1) — hence `allDomains` and the per-domain
`enc`/`dec`. -/
structure BLEnv where
  allDomains : List String
  enc : String → ℚ → ℚ
  sel : List (String × ℚ) → List (String × ℚ) → List (String × ℚ)
  fuse : List (String × ℚ) → List (String × ℚ) → ℚ
  dec : ℚ → String → ℚ
  dcyHook : String → ℚ → ℚ → ℚ → Option LossOut
  cyHook : String → ℚ → ℚ → ℚ → Option LossOut
  trHook : String → ℚ → ℚ → ℚ → Option LossOut
  fusedHook : String → ℚ → ℚ → ℚ → Option LossOut

/-- One entry of a latent domain group together with its parallel raw datum
(`latent_domains` and `raw_data` are keyed by the same frozenset in the
source). -/
structure BLEntry where
  domain : String
  latent : ℚ
  raw : ℚ
deriving DecidableEq

/-- Mutable state of one `broadcast_loss` invocation: the `losses` and
`metrics` dicts and the four bucket label lists. -/
structure BLState where
  losses : List (String × ℚ)
  metrics : List (String × ℚ)
  demi_cycle_losses : List String
  cycle_losses : List String
  translation_losses : List String
  fused_losses : List String

/-- The empty `broadcast_loss` state (all dicts and bucket lists start
empty). -/
def blank_state : BLState := ⟨[], [], [], [], [], []⟩

/-- Ascending insertion into a sorted list of strings. -/
def insertSorted (s : String) : List String → List String
  | [] => [s]
  | x :: xs => if x < s then x :: insertSorted s xs else s :: x :: xs

/-- Python `sorted` on a list of strings (ascending lexicographic). -/
def sortStr : List String → List String
  | [] => []
  | x :: xs => insertSorted x (sortStr xs)

/-- Python `sep.join(l)`. -/
def joinSep (sep : String) : List String → String
  | [] => ""
  | [s] => s
  | s :: rest => s ++ sep ++ joinSep sep rest

/-- `"{" + ",".join(sorted(domains)) + "}"`. -/
def bl_group_label (domains : List String) : String :=
  "\x7b" ++ joinSep "," (sortStr domains) ++ "\x7d"

/-- The body of the decoded-targets loop of `broadcast_loss` (losses.py lines
590-619) for one decoded `(domain, pred)` pair: skip domains without ground
truth, dispatch to the hook given by `broadcast_case`, skip a `None` result,
record the loss and metrics under `from_{selected}_to_{domain}`, and append
the label to the bucket given by `broadcast_bucket`. -/
def bl_target_step (env : BLEnv) (latents raw : List (String × ℚ))
    (group_domains selected : List String) (sel_label : String)
    (num_active : Nat) (st : BLState) (dp : String × ℚ) : BLState :=
  if dp.1 ∉ group_domains then st
  else
    let ground_truth := (latents.lookup dp.1).getD 0
    let rawv := (raw.lookup dp.1).getD 0
    let hook := match broadcast_case num_active selected dp.1 with
      | .dcy => env.dcyHook
      | .tr => env.trHook
      | .fused => env.fusedHook
    match hook dp.1 dp.2 ground_truth rawv with
    | none => st
    | some out =>
      let label := "from_" ++ sel_label ++ "_to_" ++ dp.1
      let st1 : BLState := { st with
        losses := dinsert (label ++ "_loss") out.loss st.losses
        metrics := updateAll st.metrics
          (out.metrics.map fun kv => (label ++ "_" ++ kv.1, kv.2)) }
      match broadcast_bucket num_active selected dp.1 with
      | .dcy => { st1 with
          demi_cycle_losses := st1.demi_cycle_losses ++ [label ++ "_loss"] }
      | .tr => { st1 with
          translation_losses := st1.translation_losses ++ [label ++ "_loss"] }
      | .fused => { st1 with
          fused_losses := st1.fused_losses ++ [label ++ "_loss"] }

/-- The cycle-consistency branch of `broadcast_loss` (losses.py lines
621-662): when the active subset is strict, re-encode the complementary
decoded domains, re-fuse, decode back to the active domains and score each
with `compute_cy_loss`, recording under
`from_{selected}_through_{inverse}_to_{domain}_case_{group}`. -/
def bl_cycle_step (env : BLEnv) (latents raw : List (String × ℚ))
    (group_name sel_label : String) (selected : List String)
    (decoded : List (String × ℚ)) (num_active : Nat) (st : BLState) : BLState :=
  if num_active < decoded.length then
    let inverse := decoded.filter fun dp => dp.1 ∉ selected
    let inv_label := bl_group_label (inverse.map Prod.fst)
    let re_encoded := inverse.map fun dp => (dp.1, env.enc dp.1 dp.2)
    let re_scores := env.sel inverse re_encoded
    let re_fused := env.fuse re_encoded re_scores
    selected.foldl (fun st2 domain =>
      let re_gt := (latents.lookup domain).getD 0
      match env.cyHook domain (env.dec re_fused domain) re_gt
          ((raw.lookup domain).getD 0) with
      | none => st2
      | some out =>
        let label := "from_" ++ sel_label ++ "_through_" ++ inv_label ++ "_to_"
          ++ domain ++ "_case_" ++ group_name
        { st2 with
          losses := dinsert (label ++ "_loss") out.loss st2.losses
          metrics := updateAll st2.metrics
            (out.metrics.map fun kv => (label ++ "_" ++ kv.1, kv.2))
          cycle_losses := st2.cycle_losses ++ [label ++ "_loss"] }) st
  else st

/-- Processing of one partition inside the group loop of `broadcast_loss`
(losses.py lines 572-662). -/
def bl_partition_step (env : BLEnv) (latents raw : List (String × ℚ))
    (group_name : String) (st : BLState) (partition : List Bool) : BLState :=
  let selected_pairs := (latents.zip partition).filterMap fun lp =>
    if lp.2 then some lp.1 else none
  let selected := selected_pairs.map Prod.fst
  let encoded := latents.map fun dz => (dz.1, env.enc dz.1 dz.2)
  let selected_encoded := encoded.filter fun dz => dz.1 ∈ selected
  let sel_label := bl_group_label selected
  let scores := env.sel selected_pairs selected_encoded
  let fusedv := env.fuse selected_encoded scores
  let decoded := env.allDomains.map fun d => (d, env.dec fusedv d)
  let num_active := (partition.filter id).length
  let group_domains := latents.map Prod.fst
  let st1 := decoded.foldl
    (bl_target_step env latents raw group_domains selected sel_label num_active) st
  bl_cycle_step env latents raw group_name sel_label selected decoded num_active st1

/-- Processing of one domain group by `broadcast_loss` (losses.py lines
567-662): iterate over `generate_partitions(len(group_domains))`. -/
def bl_group_step (env : BLEnv) (st : BLState) (group : List BLEntry) : BLState :=
  let latents := group.map fun e => (e.domain, e.latent)
  let raw := group.map fun e => (e.domain, e.raw)
  let group_name := bl_group_label (latents.map Prod.fst)
  (generate_partitions latents.length).foldl
    (bl_partition_step env latents raw group_name) st

/-- The cycle-loss weights of `broadcast_loss` (losses.py lines 669-675):
`weights = torch.ones(n)`, then, only when `n > 1`, `weights[1] = 3.0` and
`weights = weights / weights.sum() * n`. -/
def cycle_weights (n : Nat) : List ℚ :=
  let w := List.replicate n (1 : ℚ)
  if 1 < n then
    let w2 := w.set 1 3
    w2.map fun x => x / w2.sum * (n : ℚ)
  else w

/-- `torch.sum(torch.stack([losses[name] * w for name, w in
zip(cycle_losses, weights)]))` applied to the bucket's values. -/
def cycles_summary (vals : List ℚ) : ℚ :=
  ((vals.zip (cycle_weights vals.length)).map fun p => p.1 * p.2).sum

/-- The per-item loss values of a bucket (`losses[loss_name] for loss_name in
bucket`). -/
def bl_bucket_vals (losses : List (String × ℚ)) (labels : List String) : List ℚ :=
  labels.map fun name => (losses.lookup name).getD 0

/-- The final aggregation of `broadcast_loss` (losses.py lines 664-689):
summaries for the non-empty buckets (`demi_cycles`, weighted `cycles`,
`translations`, `fused`), then `metrics.update(losses)`. -/
def bl_aggregate (st : BLState) : List (String × ℚ) :=
  let m0 := st.metrics
  let m1 := if st.demi_cycle_losses.isEmpty then m0 else
    dinsert "demi_cycles" (listMean (bl_bucket_vals st.losses st.demi_cycle_losses))
      m0
  let m2 := if st.cycle_losses.isEmpty then m1 else
    dinsert "cycles" (cycles_summary (bl_bucket_vals st.losses st.cycle_losses)) m1
  let m3 := if st.translation_losses.isEmpty then m2 else
    dinsert "translations"
      (listMean (bl_bucket_vals st.losses st.translation_losses)) m2
  let m4 := if st.fused_losses.isEmpty then m3 else
    dinsert "fused" (listMean (bl_bucket_vals st.losses st.fused_losses)) m3
  updateAll m4 st.losses

/-- `broadcast_loss(gw_mod, selection_mod, domain_mods, latent_domains,
raw_data)`: the group loop followed by the aggregation.  This function is
total: all stacks are guarded by non-emptiness checks in the source. -/
def broadcast_loss (env : BLEnv) (groups : List (List BLEntry)) :
    List (String × ℚ) :=
  bl_aggregate (groups.foldl (bl_group_step env) blank_state)

theorem selected_subset_length (g : List String) (p : List Bool)
    (h : g.length = p.length) :
    (selected_subset g p).length = (p.filter id).length := by
  induction g generalizing p with
  | nil =>
    cases p with
    | nil => rfl
    | cons b t => simp at h
  | cons d g' ih =>
    cases p with
    | nil => simp at h
    | cons b t =>
      simp only [List.length_cons, Nat.succ_inj] at h
      cases b with
      | true =>
        simp [selected_subset, List.zip_cons_cons, List.filterMap_cons,
          List.filter_cons, ih t h]
        exact ih t h
      | false =>
        simpa [selected_subset, List.zip_cons_cons, List.filterMap_cons,
          List.filter_cons] using ih t h

theorem lookup_dinsert_self (k : String) (v : α) (m : List (String × α)) :
    (dinsert k v m).lookup k = some v := by
  induction m with
  | nil => simp [dinsert, List.lookup]
  | cons kv t ih =>
    by_cases h : kv.1 = k
    · simp [dinsert, h, List.lookup]
    · have h2 : (k == kv.1) = false := by
        simp only [beq_eq_false_iff_ne, ne_eq]
        exact fun e => h e.symm
      simp [dinsert, h, List.lookup, h2, ih]

theorem lookup_dinsert_ne (k k2 : String) (v : α) (m : List (String × α))
    (h : k2 ≠ k) : (dinsert k v m).lookup k2 = m.lookup k2 := by
  have hk2 : (k2 == k) = false := by simpa using h
  induction m with
  | nil => simp [dinsert, List.lookup, hk2]
  | cons kv t ih =>
    by_cases he : kv.1 = k
    · subst he
      simp [dinsert, List.lookup, hk2]
    · simp [dinsert, he, List.lookup, ih]

theorem lookup_updateAll_of_not_mem (k : String) (m l : List (String × α))
    (h : k ∉ l.map Prod.fst) : (updateAll m l).lookup k = m.lookup k := by
  induction l generalizing m with
  | nil => rfl
  | cons kv t ih =>
    simp only [List.map_cons, List.mem_cons, not_or] at h
    have hstep : updateAll m (kv :: t) = updateAll (dinsert kv.1 kv.2 m) t := rfl
    rw [hstep, ih (dinsert kv.1 kv.2 m) h.2, lookup_dinsert_ne _ _ _ _ h.1]

theorem zip_replicate_mul (l : List ℚ) (q : ℚ) :
    ((l.zip (List.replicate l.length q)).map fun p => p.1 * p.2).sum = l.sum * q := by
  induction l with
  | nil => simp
  | cons a t ih =>
    simp only [List.length_cons, List.replicate_succ, List.zip_cons_cons,
      List.map_cons, List.sum_cons, ih]
    ring

theorem cycles_summary_singleton (v : ℚ) : cycles_summary [v] = v := by
  simp [cycles_summary, cycle_weights]

theorem cycles_summary_formula (v0 v1 : ℚ) (rest : List ℚ) :
    cycles_summary (v0 :: v1 :: rest) =
      (v0 + 3 * v1 + rest.sum) *
        (((rest.length : ℚ) + 2) / ((rest.length : ℚ) + 4)) := by
  have hlen : (v0 :: v1 :: rest).length = rest.length + 2 := by simp
  rw [cycles_summary, hlen]
  have hrep : List.replicate (rest.length + 2) (1 : ℚ)
      = 1 :: 1 :: List.replicate rest.length 1 := by
    simp [List.replicate_succ]
  have hw : cycle_weights (rest.length + 2)
      = ((1 : ℚ) :: 3 :: List.replicate rest.length 1).map
          fun x => x / ((1 : ℚ) :: 3 :: List.replicate rest.length 1).sum
            * ((rest.length + 2 : Nat) : ℚ) := by
    rw [cycle_weights, if_pos (by omega), hrep]
    rfl
  have hsum : ((1 : ℚ) :: 3 :: List.replicate rest.length 1).sum
      = (rest.length : ℚ) + 4 := by
    simp [List.sum_replicate, nsmul_eq_mul]
    ring
  rw [hw, hsum]
  simp only [List.map_cons, List.map_replicate, List.zip_cons_cons,
    List.map_cons, List.sum_cons]
  rw [zip_replicate_mul]
  push_cast
  ring

/-! ## C3 and C5 claim theorems -/

/-- **C3.** In `broadcast_loss`, for every active subset and every decoded
target domain of the group: the subset size used in the dispatch
(`num_active_domains = sum(partition)`) equals the number of selected domains
(first conjunct); and — with `na` that size — a target that is the single
active domain is scored with `compute_dcy_loss` and bucketed as a demi-cycle,
a target outside the active subset is scored with `compute_tr_loss` and
bucketed as a translation, and a target inside an active subset of two or more
domains is scored with `compute_fused_loss` and bucketed as fused (the model
`bl_target_step` selects the hook via `broadcast_case` and the bucket via
`broadcast_bucket`). -/
theorem broadcast_target_scoring :
    (∀ (g : List String) (p : List Bool), g.length = p.length →
      (selected_subset g p).length = (p.filter id).length)
    ∧ (∀ (selected : List String) (na : Nat) (d : String), na = selected.length →
      ((selected = [d] →
        broadcast_case na selected d = .dcy ∧ broadcast_bucket na selected d = .dcy)
      ∧ (d ∉ selected →
        broadcast_case na selected d = .tr ∧ broadcast_bucket na selected d = .tr)
      ∧ (d ∈ selected ∧ 2 ≤ selected.length →
        broadcast_case na selected d = .fused
          ∧ broadcast_bucket na selected d = .fused))) := by
  refine ⟨selected_subset_length, ?_⟩
  intro selected na d hna
  refine ⟨?_, ?_, ?_⟩
  · rintro rfl
    simp at hna
    simp [broadcast_case, broadcast_bucket, hna]
  · intro hd
    have h1 : ¬(na = 1 ∧ d ∈ selected) := fun hc => hd hc.2
    simp [broadcast_case, broadcast_bucket, h1, hd]
  · rintro ⟨hmem, hlen⟩
    have h1 : ¬na = 1 := by omega
    simp [broadcast_case, broadcast_bucket, h1, hmem]

/-- Witness for C3: the demi-cycle case at the concrete active subset
`["t"]` with target `"t"`. -/
theorem broadcast_target_scoring_witness :
    broadcast_case 1 ["t"] "t" = .dcy ∧ broadcast_bucket 1 ["t"] "t" = .dcy :=
  (broadcast_target_scoring.2 ["t"] 1 "t" rfl).1 rfl

/-- GW environment for the C5 counterexample: two known domains `a`, `b`;
only the cycle hook produces a loss (`1` for domain `a`, `5` for domain
`b`). -/
def bl_env_two_singletons : BLEnv :=
  ⟨["a", "b"], fun _ z => z, fun _ _ => [], fun _ _ => 0, fun _ _ => 0,
    fun _ _ _ _ => none,
    fun d _ _ _ => some ⟨if d = "a" then 1 else 5, []⟩,
    fun _ _ _ _ => none, fun _ _ _ _ => none⟩

/-- **C5 is false on the code as stated** (counterexample): with the two
singleton domain groups `{a}` and `{b}`, each group contributes exactly one
cycle loss (first two conjuncts), so by the claim — which conditions the 3×
upweighting on "more than one cycle loss in a given domain group" — `cycles`
should be the unweighted aggregate of `1` and `5`; but the code conditions on
the length of the invocation-wide `cycle_losses` list, upweights its second
entry (which came from the other group), and returns
`1 * 0.5 + 5 * 1.5 = 8`, which is neither the unweighted mean `3` nor the
unweighted sum `6`. -/
theorem broadcast_cycles_upweighted_across_groups :
    ((bl_group_step bl_env_two_singletons blank_state
        [⟨"a", 0, 0⟩]).cycle_losses.length = 1)
    ∧ ((bl_group_step bl_env_two_singletons
        (bl_group_step bl_env_two_singletons blank_state [⟨"a", 0, 0⟩])
        [⟨"b", 0, 0⟩]).cycle_losses.length = 2)
    ∧ ((broadcast_loss bl_env_two_singletons
        [[⟨"a", 0, 0⟩], [⟨"b", 0, 0⟩]]).lookup "cycles" = some 8)
    ∧ ((8 : ℚ) ≠ (1 + 5) / 2) ∧ ((8 : ℚ) ≠ 1 + 5) := by
  refine ⟨?_, ?_, ?_, by norm_num, by norm_num⟩ <;>
  · simp [broadcast_loss, bl_group_step, bl_partition_step, bl_target_step,
      bl_cycle_step, bl_aggregate, bl_group_label, bl_bucket_vals, cycles_summary,
      cycle_weights, generate_partitions, product01, sortStr, insertSorted,
      joinSep, broadcast_case, broadcast_bucket, dinsert, updateAll, listMean,
      blank_state, bl_env_two_singletons, List.lookup]
    try norm_num

/-- **C5 (amended).** In the final aggregation of `broadcast_loss` (given any
loop state whose loss keys do not collide with the four summary names, which
holds for all generated states since recorded keys end in `_loss`):
`demi_cycles`, `translations` and `fused` are each the unweighted mean of
that bucket's per-item loss values; the `cycles` summary weights the
invocation-wide cycle-loss list, which spans all domain groups: with exactly
one entry overall it is that unweighted value, and with two or more entries
the second entry of the global list is upweighted 3× relative to the others,
the weights are normalized to sum to the list length, and `cycles` is the
weighted sum `(v0 + 3*v1 + sum rest) * n/(n+2)`. -/
theorem bl_aggregate_summaries (st : BLState)
    (hd : "demi_cycles" ∉ st.losses.map Prod.fst)
    (hc : "cycles" ∉ st.losses.map Prod.fst)
    (ht : "translations" ∉ st.losses.map Prod.fst)
    (hf : "fused" ∉ st.losses.map Prod.fst) :
    (st.demi_cycle_losses ≠ [] →
      (bl_aggregate st).lookup "demi_cycles" =
        some ((bl_bucket_vals st.losses st.demi_cycle_losses).sum /
          (bl_bucket_vals st.losses st.demi_cycle_losses).length))
    ∧ (st.translation_losses ≠ [] →
      (bl_aggregate st).lookup "translations" =
        some ((bl_bucket_vals st.losses st.translation_losses).sum /
          (bl_bucket_vals st.losses st.translation_losses).length))
    ∧ (st.fused_losses ≠ [] →
      (bl_aggregate st).lookup "fused" =
        some ((bl_bucket_vals st.losses st.fused_losses).sum /
          (bl_bucket_vals st.losses st.fused_losses).length))
    ∧ (∀ l, st.cycle_losses = [l] →
      (bl_aggregate st).lookup "cycles" = some ((st.losses.lookup l).getD 0))
    ∧ (∀ l0 l1 rest, st.cycle_losses = l0 :: l1 :: rest →
      (bl_aggregate st).lookup "cycles" =
        some (((st.losses.lookup l0).getD 0
            + 3 * (st.losses.lookup l1).getD 0
            + (bl_bucket_vals st.losses rest).sum) *
          (((rest.length : ℚ) + 2) / ((rest.length : ℚ) + 4)))) := by
  have hup : ∀ k, k ∉ st.losses.map Prod.fst →
      (bl_aggregate st).lookup k =
        (let m0 := st.metrics
        let m1 := if st.demi_cycle_losses.isEmpty then m0 else
          dinsert "demi_cycles"
            (listMean (bl_bucket_vals st.losses st.demi_cycle_losses)) m0
        let m2 := if st.cycle_losses.isEmpty then m1 else
          dinsert "cycles" (cycles_summary (bl_bucket_vals st.losses st.cycle_losses))
            m1
        let m3 := if st.translation_losses.isEmpty then m2 else
          dinsert "translations"
            (listMean (bl_bucket_vals st.losses st.translation_losses)) m2
        let m4 := if st.fused_losses.isEmpty then m3 else
          dinsert "fused" (listMean (bl_bucket_vals st.losses st.fused_losses)) m3
        m4).lookup k := by
    intro k hk
    exact lookup_updateAll_of_not_mem k _ st.losses hk
  have hskip : ∀ (c : Bool) (k k2 : String) (v : ℚ) (m : List (String × ℚ)),
      k ≠ k2 → ((if c = true then m else dinsert k2 v m).lookup k = m.lookup k) := by
    intro c k k2 v m hne
    cases c with
    | true => simp
    | false => simpa using lookup_dinsert_ne k2 k v m hne
  refine ⟨?_, ?_, ?_, ?_, ?_⟩
  · intro hne
    rw [hup _ hd]
    simp only
    rw [hskip _ _ _ _ _ (by decide), hskip _ _ _ _ _ (by decide),
      hskip _ _ _ _ _ (by decide),
      if_neg (by simpa [List.isEmpty_iff] using hne), lookup_dinsert_self]
    rfl
  · intro hne
    rw [hup _ ht]
    simp only
    rw [hskip _ _ _ _ _ (by decide),
      if_neg (by simpa [List.isEmpty_iff] using hne), lookup_dinsert_self]
    rfl
  · intro hne
    rw [hup _ hf]
    simp only
    rw [if_neg (by simpa [List.isEmpty_iff] using hne), lookup_dinsert_self]
    rfl
  · intro l hl
    rw [hup _ hc]
    simp only
    rw [hskip _ _ _ _ _ (by decide), hskip _ _ _ _ _ (by decide), hl]
    rw [if_neg (by simp [List.isEmpty_iff]), lookup_dinsert_self]
    simp [bl_bucket_vals, cycles_summary_singleton]
  · intro l0 l1 rest hl
    rw [hup _ hc]
    simp only
    rw [hskip _ _ _ _ _ (by decide), hskip _ _ _ _ _ (by decide), hl]
    rw [if_neg (by simp [List.isEmpty_iff]), lookup_dinsert_self]
    simp only [bl_bucket_vals, List.map_cons]
    rw [cycles_summary_formula]
    simp [bl_bucket_vals]

/-- Witness for C5: the demi-cycle conjunct applied at a concrete state with
one demi-cycle loss of value 2 and one translation loss of value 4. -/
theorem bl_aggregate_summaries_witness :
    (bl_aggregate ⟨[("a_loss", 2), ("b_loss", 4)], [], ["a_loss"], [],
        ["b_loss"], []⟩).lookup "demi_cycles" = some 2 := by
  have h := (bl_aggregate_summaries
    ⟨[("a_loss", 2), ("b_loss", 4)], [], ["a_loss"], [], ["b_loss"], []⟩
    (by decide) (by decide) (by decide) (by decide)).1 (by decide)
  exact h.trans (by norm_num [bl_bucket_vals, List.lookup])

/-! ## `demi_cycle_loss` (losses.py lines 42-91) and `cycle_loss`
(lines 94-157) -/

/-- External collaborators of `demi_cycle_loss`: `gw_mod.encode_and_fuse`
(with the selection module already applied), the per-domain decoder and the
`compute_dcy_loss` hook. -/
structure DCEnv where
  encode_and_fuse : List (String × ℚ) → ℚ
  dec : ℚ → String → ℚ
  dcyHook : String → ℚ → ℚ → ℚ → Option LossOut

/-- The body of the group loop of `demi_cycle_loss` for one domain group,
accumulating the `losses` and `metrics` dicts.  Groups of more than one
domain are skipped; an empty group makes `next(iter(domains))` raise
`StopIteration` (modelled by `none`); a hook returning `None` is skipped. -/
def dc_group_step (env : DCEnv)
    (acc : Option (List (String × ℚ) × List (String × ℚ)))
    (group : List BLEntry) : Option (List (String × ℚ) × List (String × ℚ)) :=
  acc.bind fun lm =>
    if group.length > 1 then some lm
    else match group with
      | [] => none
      | e :: _ =>
        let latents := group.map fun e2 => (e2.domain, e2.latent)
        let x_recons := env.dec (env.encode_and_fuse latents) e.domain
        match env.dcyHook e.domain x_recons e.latent e.raw with
        | none => some lm
        | some out => some
            (dinsert ("demi_cycle_" ++ e.domain) out.loss lm.1,
              updateAll lm.2 (out.metrics.map fun kv =>
                ("demi_cycle_" ++ e.domain ++ "_" ++ kv.1, kv.2)))

/-- The group loop of `demi_cycle_loss`. -/
def dc_loop (env : DCEnv) (groups : List (List BLEntry)) :
    Option (List (String × ℚ) × List (String × ℚ)) :=
  groups.foldl (dc_group_step env) (some ([], []))

/-- `demi_cycle_loss`: the group loop, then
`losses["demi_cycles"] = torch.stack(list(losses.values())).mean()` (which
raises on an empty loss dict, modelled by `none`) and
`losses.update(metrics)`. -/
def demi_cycle_loss (env : DCEnv) (groups : List (List BLEntry)) :
    Option (List (String × ℚ)) :=
  (dc_loop env groups).bind fun lm =>
    match lm.1 with
    | [] => none
    | _ => some (updateAll
        (dinsert "demi_cycles" (listMean (lm.1.map Prod.snd)) lm.1) lm.2)

/-- External collaborators of `cycle_loss`: the known domains (keys of
`domain_mods`, the intermediate targets), `gw_mod.encode_and_fuse`, the
per-domain decoder and the `compute_cy_loss` hook. -/
structure CYEnv where
  allDomains : List String
  encode_and_fuse : List (String × ℚ) → ℚ
  dec : ℚ → String → ℚ
  cyHook : String → ℚ → ℚ → ℚ → Option LossOut

/-- The body of the intermediate-target loop of `cycle_loss` for the source
entry `e` and fused source latent `z`: skip `target == source`, decode to the
target, re-encode-and-fuse, decode back to the source and score with
`compute_cy_loss`; a `None` result is skipped. -/
def cy_target_step (env : CYEnv) (e : BLEntry) (z : ℚ)
    (lm2 : List (String × ℚ) × List (String × ℚ)) (target : String) :
    List (String × ℚ) × List (String × ℚ) :=
  if target = e.domain then lm2
  else
    let x_pred := [(target, env.dec z target)]
    let x_recons := env.dec (env.encode_and_fuse x_pred) e.domain
    match env.cyHook e.domain x_recons e.latent e.raw with
    | none => lm2
    | some out =>
      (dinsert ("cycle_" ++ e.domain ++ "_through_" ++ target) out.loss lm2.1,
        updateAll lm2.2 (out.metrics.map fun kv =>
          ("cycle_" ++ e.domain ++ "_through_" ++ target ++ "_" ++ kv.1, kv.2)))

/-- The body of the group loop of `cycle_loss` for one source group: skip
groups of more than one domain, raise `StopIteration` on an empty group
(`list(domains_source)[0]`, modelled by `none`), otherwise visit every known
domain as intermediate target. -/
def cy_group_step (env : CYEnv)
    (acc : Option (List (String × ℚ) × List (String × ℚ)))
    (group : List BLEntry) : Option (List (String × ℚ) × List (String × ℚ)) :=
  acc.bind fun lm =>
    if group.length > 1 then some lm
    else match group with
      | [] => none
      | e :: _ =>
        let z := env.encode_and_fuse (group.map fun e2 => (e2.domain, e2.latent))
        some (env.allDomains.foldl (cy_target_step env e z) lm)

/-- The group loop of `cycle_loss`: for every single-domain source group,
cycle through every other known domain (`source → target → source`). -/
def cy_loop (env : CYEnv) (groups : List (List BLEntry)) :
    Option (List (String × ℚ) × List (String × ℚ)) :=
  groups.foldl (cy_group_step env) (some ([], []))

/-- `cycle_loss`: the group loop, then the `cycles` mean (which raises on an
empty loss dict, modelled by `none`) and `losses.update(metrics)`. -/
def cycle_loss (env : CYEnv) (groups : List (List BLEntry)) :
    Option (List (String × ℚ)) :=
  (cy_loop env groups).bind fun lm =>
    match lm.1 with
    | [] => none
    | _ => some (updateAll
        (dinsert "cycles" (listMean (lm.1.map Prod.snd)) lm.1) lm.2)

theorem foldl_const {σ α : Type _} (f : σ → α → σ) (h : ∀ s a, f s a = s) :
    ∀ (l : List α) (s : σ), l.foldl f s = s := by
  intro l
  induction l with
  | nil => intro s; rfl
  | cons a t ih => intro s; rw [List.foldl_cons, h s a]; exact ih s

theorem bl_target_step_all_none (env : BLEnv) (latents raw : List (String × ℚ))
    (group_domains selected : List String) (sel_label : String)
    (num_active : Nat) (st : BLState) (dp : String × ℚ)
    (hdcy : ∀ d p g r, env.dcyHook d p g r = none)
    (htr : ∀ d p g r, env.trHook d p g r = none)
    (hfused : ∀ d p g r, env.fusedHook d p g r = none) :
    bl_target_step env latents raw group_domains selected sel_label num_active
      st dp = st := by
  rw [bl_target_step]
  by_cases hmem : dp.1 ∉ group_domains
  · rw [if_pos hmem]
  · rw [if_neg hmem]
    cases hbc : broadcast_case num_active selected dp.1 <;>
      simp [hbc, hdcy, htr, hfused]

theorem bl_cycle_step_all_none (env : BLEnv) (latents raw : List (String × ℚ))
    (group_name sel_label : String) (selected : List String)
    (decoded : List (String × ℚ)) (num_active : Nat) (st : BLState)
    (hcy : ∀ d p g r, env.cyHook d p g r = none) :
    bl_cycle_step env latents raw group_name sel_label selected decoded
      num_active st = st := by
  rw [bl_cycle_step]
  by_cases hlt : num_active < decoded.length
  · rw [if_pos hlt]
    exact foldl_const _ (fun s a => by simp [hcy]) selected st
  · rw [if_neg hlt]

theorem bl_group_step_all_none (env : BLEnv) (st : BLState)
    (group : List BLEntry)
    (hdcy : ∀ d p g r, env.dcyHook d p g r = none)
    (hcy : ∀ d p g r, env.cyHook d p g r = none)
    (htr : ∀ d p g r, env.trHook d p g r = none)
    (hfused : ∀ d p g r, env.fusedHook d p g r = none) :
    bl_group_step env st group = st := by
  rw [bl_group_step]
  refine foldl_const _ (fun s p => ?_) _ st
  simp only [bl_partition_step]
  rw [foldl_const _ (fun s2 dp =>
      bl_target_step_all_none env _ _ _ _ _ _ s2 dp hdcy htr hfused)]
  exact bl_cycle_step_all_none env _ _ _ _ _ _ _ s hcy

theorem foldl_fixed {σ α : Type _} (f : σ → α → σ) (s0 : σ)
    (h : ∀ a, f s0 a = s0) : ∀ l : List α, l.foldl f s0 = s0 := by
  intro l
  induction l with
  | nil => rfl
  | cons a t ih => rw [List.foldl_cons, h a]; exact ih

theorem cy_target_step_none (env : CYEnv) (e : BLEntry) (z : ℚ)
    (h : ∀ p g r, env.cyHook e.domain p g r = none)
    (lm2 : List (String × ℚ) × List (String × ℚ)) (target : String) :
    cy_target_step env e z lm2 target = lm2 := by
  by_cases ht : target = e.domain <;> simp [cy_target_step, ht, h]

theorem dc_group_step_head_none (env : DCEnv) (e : BLEntry) (rest : List BLEntry)
    (h : ∀ p g r, env.dcyHook e.domain p g r = none)
    (acc : Option (List (String × ℚ) × List (String × ℚ))) :
    dc_group_step env acc (e :: rest) = acc := by
  cases acc with
  | none => rfl
  | some lm =>
    by_cases hlen : (e :: rest).length > 1 <;> simp [dc_group_step, hlen, h]

theorem cy_group_step_head_none (env : CYEnv) (e : BLEntry) (rest : List BLEntry)
    (h : ∀ p g r, env.cyHook e.domain p g r = none)
    (acc : Option (List (String × ℚ) × List (String × ℚ))) :
    cy_group_step env acc (e :: rest) = acc := by
  cases acc with
  | none => rfl
  | some lm =>
    simp only [cy_group_step, Option.some_bind]
    by_cases hlen : (e :: rest).length > 1
    · rw [if_pos hlen]
    · rw [if_neg hlen]
      exact congrArg some (foldl_const _
        (fun s t => cy_target_step_none env e _ h s t) env.allDomains lm)

/-! ## `translation_loss` (losses.py lines 160-228) -/

/-- External collaborators of `translation_loss`. -/
structure TREnv where
  encode_and_fuse : List (String × ℚ) → ℚ
  dec : ℚ → String → ℚ
  trHook : String → ℚ → ℚ → ℚ → Option LossOut

/-- The `loss_name`s that `translation_loss` forms, in enumeration order:
for every group of at least two domains and every target in it,
`"/".join(sources) + "_to_" + target` where `sources` are the group's other
domains in group order. -/
def translation_loss_names (groups : List (List BLEntry)) : List String :=
  groups.flatMap fun group =>
    if group.length < 2 then []
    else group.map fun e =>
      joinSep "/" ((group.filter fun e2 => e2.domain ≠ e.domain).map
        fun e2 => e2.domain) ++ "_to_" ++ e.domain

/-- The group/target loop of `translation_loss`, accumulating the `losses` and
`metrics` dicts.  The collision check is modelled exactly as written in the
source: `if loss_name in losses: raise ValueError(...)` tests the *unprefixed*
`loss_name` against the dict whose keys are recorded as
`"translation_" + loss_name`. -/
def tr_entry_step (env : TREnv) (group : List BLEntry)
    (acc2 : Except String (List (String × ℚ) × List (String × ℚ)))
    (e : BLEntry) : Except String (List (String × ℚ) × List (String × ℚ)) :=
  acc2.bind fun lm2 =>
    let sources := group.filter fun e2 => e2.domain ≠ e.domain
    let z := env.encode_and_fuse (sources.map fun e2 => (e2.domain, e2.latent))
    let loss_name := joinSep "/" (sources.map fun e2 => e2.domain)
      ++ "_to_" ++ e.domain
    if (lm2.1.map Prod.fst).contains loss_name then
      .error ("ValueError: " ++ loss_name ++ " is already computed.")
    else
      let prediction := env.dec z e.domain
      match env.trHook e.domain prediction e.latent e.raw with
      | none => .ok lm2
      | some out => .ok
          (dinsert ("translation_" ++ loss_name) out.loss lm2.1,
            updateAll lm2.2 (out.metrics.map fun kv =>
              ("translation_" ++ loss_name ++ "_" ++ kv.1, kv.2)))

/-- The body of the group loop of `translation_loss`: skip groups of fewer
than two domains, otherwise visit every domain of the group as target. -/
def tr_group_step (env : TREnv)
    (acc : Except String (List (String × ℚ) × List (String × ℚ)))
    (group : List BLEntry) :
    Except String (List (String × ℚ) × List (String × ℚ)) :=
  acc.bind fun lm =>
    if group.length < 2 then .ok lm
    else group.foldl (tr_entry_step env group) (.ok lm)

def tr_loop (env : TREnv) (groups : List (List BLEntry)) :
    Except String (List (String × ℚ) × List (String × ℚ)) :=
  groups.foldl (tr_group_step env)
    (.ok (([], []) : List (String × ℚ) × List (String × ℚ)))

/-- `translation_loss`: the loop, then the `translations` mean (the stack
raises on an empty loss dict) and `losses.update(metrics)`. -/
def translation_loss (env : TREnv) (groups : List (List BLEntry)) :
    Except String (List (String × ℚ)) :=
  (tr_loop env groups).bind fun lm =>
    match lm.1 with
    | [] => .error "RuntimeError: stack expects a non-empty TensorList"
    | _ => .ok (updateAll
        (dinsert "translations" (listMean (lm.1.map Prod.snd)) lm.1) lm.2)

/-- **C7: the collision check never fires on a genuine duplicate.**  With the
groups `{a_to_b, c}` and `{a, b_to_c}` (hooks always returning loss 1), the
loss name `a_to_b_to_c` is formed twice — once as `({a_to_b}, c)`, once as
`({a}, b_to_c)` (first conjunct) — yet `translation_loss` raises no
`ValueError`: the check tests the bare `loss_name` against keys stored under
the `translation_` prefix, so the second computation silently overwrites the
first and the result holds a single `translation_a_to_b_to_c` entry (second
and third conjuncts). -/
theorem translation_collision_not_raised :
    ((translation_loss_names
        [[⟨"a_to_b", 1, 1⟩, ⟨"c", 2, 2⟩], [⟨"a", 3, 3⟩, ⟨"b_to_c", 4, 4⟩]]).count
      "a_to_b_to_c" = 2)
    ∧ (translation_loss ⟨fun _ => 0, fun _ _ => 0, fun _ _ _ _ => some ⟨1, []⟩⟩
        [[⟨"a_to_b", 1, 1⟩, ⟨"c", 2, 2⟩], [⟨"a", 3, 3⟩, ⟨"b_to_c", 4, 4⟩]] =
      .ok [("translation_c_to_a_to_b", 1), ("translation_a_to_b_to_c", 1),
        ("translation_b_to_c_to_a", 1), ("translations", 1)])
    ∧ (((translation_loss ⟨fun _ => 0, fun _ _ => 0, fun _ _ _ _ => some ⟨1, []⟩⟩
        [[⟨"a_to_b", 1, 1⟩, ⟨"c", 2, 2⟩], [⟨"a", 3, 3⟩, ⟨"b_to_c", 4, 4⟩]]).map
          fun l => (l.map Prod.fst).count "translation_a_to_b_to_c") =
      .ok 1) := by
  refine ⟨by simp [translation_loss_names, joinSep], ?_, ?_⟩ <;>
  · simp [translation_loss, tr_loop, tr_group_step, tr_entry_step, joinSep,
      dinsert, updateAll, listMean, List.lookup, Except.bind, Except.map]
    try norm_num

theorem tr_entry_step_none_at_empty (env : TREnv) (group : List BLEntry)
    (h : ∀ d p g r, env.trHook d p g r = none) (e : BLEntry) :
    tr_entry_step env group (.ok ([], [])) e = .ok ([], []) := by
  simp [tr_entry_step, Except.bind, h]

theorem tr_group_step_none (env : TREnv) (group : List BLEntry)
    (h : ∀ d p g r, env.trHook d p g r = none) :
    tr_group_step env (.ok ([], [])) group = .ok ([], []) := by
  by_cases hlen : group.length < 2
  · simp [tr_group_step, Except.bind, hlen]
  · simp only [tr_group_step, Except.bind, hlen, if_false]
    exact foldl_fixed _ _ (tr_entry_step_none_at_empty env group h) group

/-- **C8 is false on the code as stated** (counterexample): with a single
one-domain group whose `compute_dcy_loss` hook returns `None`, the loss dict
stays empty and `demi_cycle_loss` does not return a metrics dict: the final
`torch.stack(list(losses.values()), dim=0)` raises on the empty list
(modelled by `none`). -/
theorem demi_cycle_all_none_hooks_error :
    demi_cycle_loss ⟨fun _ => 0, fun _ _ => 0, fun _ _ _ _ => none⟩
      [[⟨"A", 1, 1⟩]] = none := rfl

/-- **C8 (amended).** A domain loss hook returning no result (`None`) is not
itself an error: the corresponding metric is omitted from the bucket's
aggregate — for `demi_cycle_loss` and `cycle_loss` the computation proceeds
exactly as if that single-domain group were absent (first and second
conjuncts) — and `broadcast_loss` tolerates even all hooks returning `None`,
returning an (empty) metrics dict with all bucket summaries omitted (third
conjunct).  However — contrary to the claim — when every hook consulted
returns `None`, so that no loss is recorded, the summary stack over the empty
loss dict raises instead of returning the metrics dict: in `demi_cycle_loss`
(fourth conjunct, for any input whose groups are non-empty, losses.py:89), in
`cycle_loss` (fifth conjunct, losses.py:155) and in `translation_loss` (sixth
conjunct, losses.py:226). -/
theorem none_hook_skips_metric :
    (∀ (env : DCEnv) (gs1 gs2 : List (List BLEntry)) (e : BLEntry),
      (∀ p g r, env.dcyHook e.domain p g r = none) →
      demi_cycle_loss env (gs1 ++ [e] :: gs2) = demi_cycle_loss env (gs1 ++ gs2))
    ∧ (∀ (env : CYEnv) (gs1 gs2 : List (List BLEntry)) (e : BLEntry),
      (∀ p g r, env.cyHook e.domain p g r = none) →
      cycle_loss env (gs1 ++ [e] :: gs2) = cycle_loss env (gs1 ++ gs2))
    ∧ (∀ (env : BLEnv) (groups : List (List BLEntry)),
      (∀ d p g r, env.dcyHook d p g r = none) →
      (∀ d p g r, env.cyHook d p g r = none) →
      (∀ d p g r, env.trHook d p g r = none) →
      (∀ d p g r, env.fusedHook d p g r = none) →
      broadcast_loss env groups = [])
    ∧ (∀ (env : DCEnv) (groups : List (List BLEntry)),
      (∀ d p g r, env.dcyHook d p g r = none) →
      (∀ g ∈ groups, g ≠ []) →
      demi_cycle_loss env groups = none)
    ∧ (∀ (env : CYEnv) (groups : List (List BLEntry)),
      (∀ d p g r, env.cyHook d p g r = none) →
      (∀ g ∈ groups, g ≠ []) →
      cycle_loss env groups = none)
    ∧ (∀ (env : TREnv) (groups : List (List BLEntry)),
      (∀ d p g r, env.trHook d p g r = none) →
      translation_loss env groups =
        .error "RuntimeError: stack expects a non-empty TensorList") := by
  refine ⟨?_, ?_, ?_, ?_, ?_, ?_⟩
  · intro env gs1 gs2 e h
    rw [demi_cycle_loss, demi_cycle_loss]
    have hdc : dc_loop env (gs1 ++ [e] :: gs2) = dc_loop env (gs1 ++ gs2) := by
      rw [dc_loop, dc_loop, List.foldl_append, List.foldl_append, List.foldl_cons,
        dc_group_step_head_none env e [] h]
    rw [hdc]
  · intro env gs1 gs2 e h
    rw [cycle_loss, cycle_loss]
    have hcy : cy_loop env (gs1 ++ [e] :: gs2) = cy_loop env (gs1 ++ gs2) := by
      rw [cy_loop, cy_loop, List.foldl_append, List.foldl_append, List.foldl_cons,
        cy_group_step_head_none env e [] h]
    rw [hcy]
  · intro env groups hdcy hcy htr hfused
    rw [broadcast_loss]
    rw [foldl_const _ (fun s g => bl_group_step_all_none env s g hdcy hcy htr
      hfused)]
    rfl
  · intro env groups h hne
    have hloop : ∀ gs : List (List BLEntry), (∀ g ∈ gs, g ≠ []) →
        dc_loop env gs = some ([], []) := by
      intro gs
      induction gs with
      | nil => intro _; rfl
      | cons g t ih =>
        intro hmem
        rw [dc_loop, List.foldl_cons]
        cases g with
        | nil => exact absurd rfl (hmem [] (List.mem_cons_self _ _))
        | cons e rest =>
          rw [dc_group_step_head_none env e rest (fun p gt r => h e.domain p gt r)]
          exact ih fun g2 hg2 => hmem g2 (List.mem_cons_of_mem _ hg2)
    rw [demi_cycle_loss, hloop groups hne]
    rfl
  · intro env groups h hne
    have hloop : ∀ gs : List (List BLEntry), (∀ g ∈ gs, g ≠ []) →
        cy_loop env gs = some ([], []) := by
      intro gs
      induction gs with
      | nil => intro _; rfl
      | cons g t ih =>
        intro hmem
        rw [cy_loop, List.foldl_cons]
        cases g with
        | nil => exact absurd rfl (hmem [] (List.mem_cons_self _ _))
        | cons e rest =>
          rw [cy_group_step_head_none env e rest (fun p gt r => h e.domain p gt r)]
          exact ih fun g2 hg2 => hmem g2 (List.mem_cons_of_mem _ hg2)
    rw [cycle_loss, hloop groups hne]
    rfl
  · intro env groups h
    have hloop : tr_loop env groups = .ok ([], []) := by
      rw [tr_loop]
      exact foldl_fixed _ _ (fun g => tr_group_step_none env g h) groups
    rw [translation_loss, hloop]
    rfl

/-- Witness for C8: the demi-cycle skip conjunct applied at a concrete input
(removing a `None`-hook singleton group `"B"` does not change the result),
together with the all-`None` raise conjuncts for `cycle_loss` and
`translation_loss` at concrete inputs. -/
theorem none_hook_skips_metric_witness :
    (demi_cycle_loss ⟨fun _ => 0, fun _ _ => 0, fun _ _ _ _ => none⟩
        ([[⟨"A", 1, 1⟩]] ++ [⟨"B", 2, 2⟩] :: []) =
      demi_cycle_loss ⟨fun _ => 0, fun _ _ => 0, fun _ _ _ _ => none⟩
        ([[⟨"A", 1, 1⟩]] ++ []))
    ∧ (cycle_loss ⟨["A", "B"], fun _ => 0, fun _ _ => 0, fun _ _ _ _ => none⟩
        [[⟨"A", 1, 1⟩]] = none)
    ∧ (translation_loss ⟨fun _ => 0, fun _ _ => 0, fun _ _ _ _ => none⟩
        [[⟨"A", 1, 1⟩, ⟨"B", 2, 2⟩]] =
      .error "RuntimeError: stack expects a non-empty TensorList") :=
  ⟨none_hook_skips_metric.1 ⟨fun _ => 0, fun _ _ => 0, fun _ _ _ _ => none⟩
      [[⟨"A", 1, 1⟩]] [] ⟨"B", 2, 2⟩ fun _ _ _ => rfl,
    none_hook_skips_metric.2.2.2.2.1
      ⟨["A", "B"], fun _ => 0, fun _ _ => 0, fun _ _ _ _ => none⟩
      [[⟨"A", 1, 1⟩]] (fun _ _ _ _ => rfl) (by simp),
    none_hook_skips_metric.2.2.2.2.2
      ⟨fun _ => 0, fun _ _ => 0, fun _ _ _ _ => none⟩
      [[⟨"A", 1, 1⟩, ⟨"B", 2, 2⟩]] fun _ _ _ _ => rfl⟩

/-! ## Step entry points of the orchestrator
(global_workspace.py lines 204-235) -/

/-- `batch[k] = v` on a dict keyed by frozensets of domain names (overwrite
keeps the position of an existing key). -/
def finsert (k : Finset String) (v : α) :
    List (Finset String × α) → List (Finset String × α)
  | [] => [(k, v)]
  | kv :: rest => if kv.1 = k then (k, v) :: rest else kv :: finsert k v rest

/-- The batch built identically by `validation_step` (lines 207-209),
`test_step` (lines 217-219) and `predict_step` (lines 230-232):
`batch = {frozenset(data.keys()): data}` followed by
`batch[frozenset([domain])] = {domain: data[domain]}` for every domain of the
raw data. -/
def build_inference_batch (data : List (String × ℚ)) :
    List (Finset String × List (String × ℚ)) :=
  data.foldl (fun b kv => finsert {kv.1} [(kv.1, kv.2)] b)
    [((data.map Prod.fst).toFinset, data)]

/-- `training_step` (lines 224-227) forwards its group-keyed batch unchanged
to `generic_step` (which hands it to `encode_domains` and the loss engine). -/
def training_step_batch (batch : List (Finset String × List (String × ℚ))) :
    List (Finset String × List (String × ℚ)) :=
  batch

theorem mem_keys_finsert (k k2 : Finset String) (v : α)
    (b : List (Finset String × α)) :
    k2 ∈ (finsert k v b).map Prod.fst ↔ k2 = k ∨ k2 ∈ b.map Prod.fst := by
  induction b with
  | nil => simp [finsert]
  | cons kv t ih =>
    by_cases h : kv.1 = k
    · subst h
      simp [finsert]
    · simp only [finsert, h, if_false, List.map_cons, List.mem_cons, ih]
      tauto

theorem mem_keys_fold_inserts (l : List (String × ℚ))
    (b : List (Finset String × List (String × ℚ))) (k : Finset String) :
    k ∈ ((l.foldl (fun b kv => finsert {kv.1} [(kv.1, kv.2)] b) b).map Prod.fst) ↔
      k ∈ b.map Prod.fst ∨ ∃ d ∈ l.map Prod.fst, k = ({d} : Finset String) := by
  induction l generalizing b with
  | nil => simp
  | cons kv t ih =>
    rw [List.foldl_cons, ih, mem_keys_finsert]
    simp only [List.map_cons, List.mem_cons]
    constructor
    · rintro ((rfl | h) | ⟨d, hd, rfl⟩)
      · exact Or.inr ⟨kv.1, Or.inl rfl, rfl⟩
      · exact Or.inl h
      · exact Or.inr ⟨d, Or.inr hd, rfl⟩
    · rintro (h | ⟨d, rfl | hd, rfl⟩)
      · exact Or.inl (Or.inr h)
      · exact Or.inl (Or.inl rfl)
      · exact Or.inr ⟨d, hd, rfl⟩

/-- **C9 is false on the code as stated** (counterexample): `training_step`
does not augment its batch: handed the single matched group `{A, B}`, the
domain groups reaching the loss engine are exactly `[{A, B}]`, and the
singleton projection `{A}` that the claim requires for every step entry point
is absent. -/
theorem training_step_no_singleton_projection :
    ((training_step_batch [({"A", "B"}, [("A", 1), ("B", 2)])]).map Prod.fst
      = [{"A", "B"}])
    ∧ ({"A"} : Finset String) ∉
        (training_step_batch [({"A", "B"}, [("A", 1), ("B", 2)])]).map Prod.fst := by
  exact ⟨rfl, by decide⟩

/-- **C9 (amended).** `validation_step`, `test_step` and `predict_step` all
build the batch with the same code, modelled by `build_inference_batch`: its
domain groups are exactly the full matched group of the raw data plus every
singleton projection of a domain present (first conjunct); `training_step`,
by contrast, forwards its already group-keyed batch unchanged, adding no
singleton projections (second conjunct). -/
theorem inference_steps_augment_training_step_does_not :
    (∀ (data : List (String × ℚ)) (k : Finset String),
      k ∈ (build_inference_batch data).map Prod.fst ↔
        (k = (data.map Prod.fst).toFinset
          ∨ ∃ d ∈ data.map Prod.fst, k = ({d} : Finset String)))
    ∧ (∀ batch, training_step_batch batch = batch) := by
  constructor
  · intro data k
    rw [build_inference_batch, mem_keys_fold_inserts]
    simp
  · intro batch
    rfl

